import Mathlib

/-!
# Verification of the SEIR / Lorenz 4D-Var tutorial transition functions

A shallow embedding (over `ℚ`) of the state-transition functions, the
observation generator and an abstract model of the assimilation engine of
the `SEIR_4dvar` notebook, together with proofs of the specified
properties of each component.

Numeric state components are embedded as rational numbers; the floating
point division by the alive population `N` in `seir_step` is embedded as a
fallible step (`Option`): the step is `none` exactly when the source would
divide by `N = 0`.
-/

namespace SeirFourDVar

/-- The SEIR state vector, in the source's component order
`[S, E, I, R, D, alfa, beta, eps, gamma]`: four compartments, cumulative
deaths, and the four rate parameters carried inside the state. -/
structure SEIRState where
  S : ℚ
  E : ℚ
  I : ℚ
  R : ℚ
  D : ℚ
  alfa : ℚ
  beta : ℚ
  eps : ℚ
  gamma : ℚ
  deriving Repr, DecidableEq

/-- The clamping pass of `seir_step`: the source maps
`lambda x : max(x, 0)` over the whole flattened state vector, so every
component — parameters included — is clamped to zero from below. -/
def clampState (st : SEIRState) : SEIRState where
  S := max st.S 0
  E := max st.E 0
  I := max st.I 0
  R := max st.R 0
  D := max st.D 0
  alfa := max st.alfa 0
  beta := max st.beta 0
  eps := max st.eps 0
  gamma := max st.gamma 0

/-- One step of the SEIR model, embedding `seir_step` of the notebook.
The source clamps every component to zero, computes the alive population
`N = S + E + I + R` and divides by it with no guard; the embedding returns
`none` exactly when that division is a division by zero (`N = 0`). -/
def seir_step (state : SEIRState) : Option SEIRState :=
  let c := clampState state
  let N := c.S + c.E + c.I + c.R
  if N = 0 then none
  else some
    { S := c.S - c.S * c.beta * c.I / N
      E := c.E + c.S * c.beta * c.I / N - c.eps * c.E
      I := c.I + c.eps * c.E - (c.alfa + c.gamma) * c.I
      R := c.R + c.gamma * c.I
      D := c.D + c.alfa * c.I
      alfa := c.alfa
      beta := c.beta
      eps := c.eps
      gamma := c.gamma }

/-- The documented bounds for the SEIR rate parameters:
alfa in [0.001, 0.01], beta in [0, 7], eps in [0.05, 0.5],
gamma in [0.05, 0.5]. -/
def paramsInBounds (st : SEIRState) : Prop :=
  1/1000 ≤ st.alfa ∧ st.alfa ≤ 1/100 ∧
  0 ≤ st.beta ∧ st.beta ≤ 7 ∧
  1/20 ≤ st.eps ∧ st.eps ≤ 1/2 ∧
  1/20 ≤ st.gamma ∧ st.gamma ≤ 1/2

/-- Non-negativity of the five compartment components of a state. -/
def compartmentsNonneg (st : SEIRState) : Prop :=
  0 ≤ st.S ∧ 0 ≤ st.E ∧ 0 ≤ st.I ∧ 0 ≤ st.R ∧ 0 ≤ st.D

/-- Iterated SEIR stepping: a trajectory of `n` daily steps, undefined as
soon as one step is undefined. -/
def seirIter (st : SEIRState) : ℕ → Option SEIRState
  | 0 => some st
  | n + 1 => (seirIter st n).bind seir_step

/-- The Lorenz state vector of the assimilation part of the notebook,
`[x, y, z, rho, sigma, beta]`: three dynamic coordinates and the three
model coefficients carried inside the state. -/
structure LorenzState where
  x : ℚ
  y : ℚ
  z : ℚ
  rho : ℚ
  sigma : ℚ
  beta : ℚ
  deriving Repr, DecidableEq

/-- The Lorenz-63 increments, embedding `lorenz_step` of the notebook:
given `(x, y, z)` and the coefficients it returns the derivatives
`(sigma*(y-x), x*(rho-z)-y, x*y-beta*z)`. (The source also takes an
unused time placeholder for `odeint`, dropped here.) -/
def lorenz_step (state : ℚ × ℚ × ℚ) (rho sigma beta : ℚ) : ℚ × ℚ × ℚ :=
  (sigma * (state.2.1 - state.1),
   state.1 * (rho - state.2.2) - state.2.1,
   state.1 * state.2.1 - beta * state.2.2)

/-- The global time step of the assimilation part of the notebook:
`d = 0.01`. -/
def d : ℚ := 1 / 100

/-- One evolution step of the Lorenz model, embedding `lorenz_evol_step`:
the coefficients are replaced by their absolute values, the dynamic
coordinates advance by a forward-Euler update of step `d` on the
`lorenz_step` increments, and the absolute-valued coefficients are the
ones written back into the returned state. -/
def lorenz_evol_step (state : LorenzState) : LorenzState :=
  let rho := |state.rho|
  let sigma := |state.sigma|
  let beta := |state.beta|
  let dv := lorenz_step (state.x, state.y, state.z) rho sigma beta
  { x := state.x + d * dv.1
    y := state.y + d * dv.2.1
    z := state.z + d * dv.2.2
    rho := rho
    sigma := sigma
    beta := beta }

/-- Modelled from the spec: the body of `prepare_obs` is left as a TASK
exercise in the notebook (both the appended expression and the state
update are holes `???`); per the spec's contract for the observation
generator, it produces a sequence of `size` observations by repeatedly
observing the current state with `obs_operator` and then advancing the
state with `evolution_function`, in time order. -/
def prepare_obs {α β : Type} (state : α) (obs_operator : α → β)
    (evolution_function : α → α) : ℕ → List β
  | 0 => []
  | n + 1 =>
    obs_operator state ::
      prepare_obs (evolution_function state) obs_operator evolution_function n

/-- Modelled from the spec: the assimilation cost functional of
`assimilate` (which lives in `data_assimilation.py`, a module that is not
among the sources). Per the spec, the cost of a candidate initial state
`x` is the squared, weight-`w` (inverse prior covariance) deviation of `x`
from the background `xb`, plus the summed squared misfit between the
predicted observations (observation operator applied to the iterated
transition function) and the actual observations over the whole window of
`steps` observations. -/
def assimCost {n m : ℕ} (xb : Fin n → ℚ) (yobs : ℕ → Fin m → ℚ)
    (obs_operator : (Fin n → ℚ) → Fin m → ℚ)
    (evolution_function : (Fin n → ℚ) → Fin n → ℚ)
    (w : Fin n → ℚ) (steps : ℕ) (x : Fin n → ℚ) : ℚ :=
  (∑ j, w j * (x j - xb j) ^ 2) +
    ∑ i ∈ Finset.range steps,
      ∑ k, (obs_operator (evolution_function^[i] x) k - yobs i k) ^ 2

/-- Modelled from the spec: `assimilate` (in the absent
`data_assimilation.py`) starts its minimization from the background
candidate and repeatedly adjusts the candidate to reduce the cost,
returning its best-found estimate with no global-optimum guarantee. A
possible result of `assimilate` is therefore modelled as any state whose
cost does not exceed the cost of the background it started from. -/
def AssimilateResult {n m : ℕ} (xb : Fin n → ℚ) (yobs : ℕ → Fin m → ℚ)
    (obs_operator : (Fin n → ℚ) → Fin m → ℚ)
    (evolution_function : (Fin n → ℚ) → Fin n → ℚ)
    (w : Fin n → ℚ) (steps : ℕ) (r : Fin n → ℚ) : Prop :=
  assimCost xb yobs obs_operator evolution_function w steps r ≤
    assimCost xb yobs obs_operator evolution_function w steps xb

lemma seir_step_eq_some (st : SEIRState)
    (hN : (clampState st).S + (clampState st).E + (clampState st).I + (clampState st).R ≠ 0) :
    seir_step st = some
      { S := (clampState st).S - (clampState st).S * (clampState st).beta * (clampState st).I /
              ((clampState st).S + (clampState st).E + (clampState st).I + (clampState st).R)
        E := (clampState st).E + (clampState st).S * (clampState st).beta * (clampState st).I /
              ((clampState st).S + (clampState st).E + (clampState st).I + (clampState st).R) -
              (clampState st).eps * (clampState st).E
        I := (clampState st).I + (clampState st).eps * (clampState st).E -
              ((clampState st).alfa + (clampState st).gamma) * (clampState st).I
        R := (clampState st).R + (clampState st).gamma * (clampState st).I
        D := (clampState st).D + (clampState st).alfa * (clampState st).I
        alfa := (clampState st).alfa
        beta := (clampState st).beta
        eps := (clampState st).eps
        gamma := (clampState st).gamma } := by
  unfold seir_step
  simp only [if_neg hN]

lemma seir_step_none_of_eq (st : SEIRState)
    (hN : (clampState st).S + (clampState st).E + (clampState st).I + (clampState st).R = 0) :
    seir_step st = none := by
  unfold seir_step
  simp only [if_pos hN]

lemma clampState_comps_nonneg (st : SEIRState) :
    0 ≤ (clampState st).S ∧ 0 ≤ (clampState st).E ∧ 0 ≤ (clampState st).I ∧
    0 ≤ (clampState st).R ∧ 0 ≤ (clampState st).D ∧ 0 ≤ (clampState st).alfa ∧
    0 ≤ (clampState st).beta ∧ 0 ≤ (clampState st).eps ∧ 0 ≤ (clampState st).gamma := by
  simp only [clampState]
  exact ⟨le_max_right _ _, le_max_right _ _, le_max_right _ _, le_max_right _ _,
    le_max_right _ _, le_max_right _ _, le_max_right _ _, le_max_right _ _, le_max_right _ _⟩

lemma clampState_eq_self (st : SEIRState) (hc : compartmentsNonneg st)
    (hb : paramsInBounds st) : clampState st = st := by
  obtain ⟨S, E, I, R, D, alfa, beta, eps, gamma⟩ := st
  obtain ⟨hS, hE, hI, hR, hD⟩ := hc
  obtain ⟨ha1, -, hb1, -, he1, -, hg1, -⟩ := hb
  simp only [clampState] at *
  rw [max_eq_left hS, max_eq_left hE, max_eq_left hI, max_eq_left hR,
    max_eq_left hD, max_eq_left (by linarith : (0:ℚ) ≤ alfa),
    max_eq_left hb1, max_eq_left (by linarith : (0:ℚ) ≤ eps),
    max_eq_left (by linarith : (0:ℚ) ≤ gamma)]

lemma seir_step_some_of_pos (st : SEIRState)
    (hN : 0 < (clampState st).S + (clampState st).E + (clampState st).I + (clampState st).R) :
    (seir_step st).isSome := by
  rw [seir_step_eq_some st hN.ne']
  rfl

/-- **C4 counterexample.** `seir_step` does not guard the division by the
alive population: on an input whose compartments all clamp to zero (here
`S = -1, E = -2, I = 0, R = 0`), the divisor `N = S + E + I + R` is zero
and the division by zero is performed — in the embedding the step is
undefined (`none`), matching the source evaluating `0 / 0`. -/
theorem seir_step_divides_by_zero :
    seir_step ⟨-1, -2, 0, 0, 3, 1/100, 2, 1/5, 1/5⟩ = none := by
  norm_num [seir_step, clampState, max_def]

/-- **C4 (amended).** `seir_step` performs the division by
`N = S + E + I + R` (after clamping) with no guard: the step is defined —
no division by zero occurs — exactly when at least one of the clamped
compartments `S, E, I, R` is positive; when all four clamp to zero, the
division by zero is reached. -/
theorem seir_step_defined_iff (st : SEIRState) :
    (seir_step st).isSome ↔
      0 < max st.S 0 + max st.E 0 + max st.I 0 + max st.R 0 := by
  have hnn : (0:ℚ) ≤ max st.S 0 + max st.E 0 + max st.I 0 + max st.R 0 := by
    have h1 := le_max_right st.S (0:ℚ)
    have h2 := le_max_right st.E (0:ℚ)
    have h3 := le_max_right st.I (0:ℚ)
    have h4 := le_max_right st.R (0:ℚ)
    linarith
  constructor
  · intro h
    by_contra hne
    have hz : max st.S 0 + max st.E 0 + max st.I 0 + max st.R 0 = 0 := le_antisymm (not_lt.mp hne) hnn
    rw [seir_step_none_of_eq st (by simpa [clampState] using hz)] at h
    exact absurd h (by simp)
  · intro h
    exact seir_step_some_of_pos st (by simpa [clampState] using h)

/-- **C1 counterexample.** With compartments `S = 1, E = 0, I = 1, R = 0`
(non-negative) and parameters `alfa = 0.001, beta = 7, eps = 0.05,
gamma = 0.05` — all inside the documented bounds — one application of
`seir_step` returns `S = 1 - 7/2 = -5/2 < 0`: the returned susceptible
compartment is negative. -/
theorem seir_step_negative_S_on_valid_input :
    compartmentsNonneg ⟨1, 0, 1, 0, 0, 1/1000, 7, 1/20, 1/20⟩ ∧
    paramsInBounds ⟨1, 0, 1, 0, 0, 1/1000, 7, 1/20, 1/20⟩ ∧
    seir_step ⟨1, 0, 1, 0, 0, 1/1000, 7, 1/20, 1/20⟩ =
      some ⟨-5/2, 7/2, 949/1000, 1/20, 1/1000, 1/1000, 7, 1/20, 1/20⟩ ∧
    (-5/2 : ℚ) < 0 := by
  refine ⟨by norm_num [compartmentsNonneg], by norm_num [paramsInBounds], ?_, by norm_num⟩
  norm_num [seir_step, clampState, max_def]

/-- **C1 (amended).** For non-negative compartments and parameters in the
documented bounds, every compartment component returned by `seir_step`
except `S` is non-negative; the returned `S` is non-negative provided
additionally `beta * I ≤ S + E + I + R` (which the bound `beta ≤ 7` alone
does not guarantee). -/
theorem seir_step_nonneg_components (st out : SEIRState)
    (hc : compartmentsNonneg st) (hb : paramsInBounds st)
    (hstep : seir_step st = some out) :
    0 ≤ out.E ∧ 0 ≤ out.I ∧ 0 ≤ out.R ∧ 0 ≤ out.D ∧
    (st.beta * st.I ≤ st.S + st.E + st.I + st.R → 0 ≤ out.S) := by
  have hcl := clampState_eq_self st hc hb
  obtain ⟨hS, hE, hI, hR, hD⟩ := hc
  obtain ⟨ha1, ha2, hb1, hb2, he1, he2, hg1, hg2⟩ := hb
  have hNne : st.S + st.E + st.I + st.R ≠ 0 := by
    intro h0
    rw [seir_step_none_of_eq st (by rw [hcl]; exact h0)] at hstep
    exact Option.noConfusion hstep
  have hN : 0 < st.S + st.E + st.I + st.R :=
    lt_of_le_of_ne (by linarith) (Ne.symm hNne)
  have hsome := seir_step_eq_some st (by rw [hcl]; exact hNne)
  rw [hcl] at hsome
  rw [hsome] at hstep
  obtain rfl := Option.some_inj.mp hstep
  dsimp only
  have hq : 0 ≤ st.S * st.beta * st.I / (st.S + st.E + st.I + st.R) :=
    div_nonneg (mul_nonneg (mul_nonneg hS hb1) hI) hN.le
  refine ⟨?_, ?_, ?_, ?_, ?_⟩
  · have h1 : 0 ≤ st.E * (1 - st.eps) := mul_nonneg hE (by linarith)
    nlinarith
  · have h2 : 0 ≤ st.I * (1 - st.alfa - st.gamma) := mul_nonneg hI (by linarith)
    have h3 : 0 ≤ st.eps * st.E := mul_nonneg (by linarith) hE
    nlinarith
  · exact add_nonneg hR (mul_nonneg (by linarith) hI)
  · exact add_nonneg hD (mul_nonneg (by linarith) hI)
  · intro hle
    have hrw : st.S - st.S * st.beta * st.I / (st.S + st.E + st.I + st.R) =
        st.S * ((st.S + st.E + st.I + st.R) - st.beta * st.I) /
          (st.S + st.E + st.I + st.R) := by
      field_simp
      ring
    rw [hrw]
    exact div_nonneg (mul_nonneg hS (by linarith)) hN.le

/-- **C5.** For non-negative compartments, parameters in the documented
bounds and a positive alive population, one application of `seir_step`
changes the alive population `S + E + I + R` by exactly `- alfa * I`, and
in particular never increases it. -/
theorem seir_step_alive_population (st out : SEIRState)
    (hc : compartmentsNonneg st) (hb : paramsInBounds st)
    (hN : 0 < st.S + st.E + st.I + st.R)
    (hstep : seir_step st = some out) :
    out.S + out.E + out.I + out.R = (st.S + st.E + st.I + st.R) - st.alfa * st.I ∧
    out.S + out.E + out.I + out.R ≤ st.S + st.E + st.I + st.R := by
  have hcl := clampState_eq_self st hc hb
  have hsome := seir_step_eq_some st (by rw [hcl]; exact hN.ne')
  rw [hcl] at hsome
  rw [hsome] at hstep
  obtain rfl := Option.some_inj.mp hstep
  dsimp only
  have hsum : (st.S - st.S * st.beta * st.I / (st.S + st.E + st.I + st.R)) +
      (st.E + st.S * st.beta * st.I / (st.S + st.E + st.I + st.R) - st.eps * st.E) +
      (st.I + st.eps * st.E - (st.alfa + st.gamma) * st.I) +
      (st.R + st.gamma * st.I) =
      (st.S + st.E + st.I + st.R) - st.alfa * st.I := by
    ring
  refine ⟨hsum, ?_⟩
  rw [hsum]
  obtain ⟨-, -, hI, -, -⟩ := hc
  obtain ⟨ha1, -⟩ := hb
  nlinarith

lemma seir_step_D_ge_max (st out : SEIRState) (h : seir_step st = some out) :
    max st.D 0 ≤ out.D := by
  have hNne :
      (clampState st).S + (clampState st).E + (clampState st).I + (clampState st).R ≠ 0 := by
    intro h0
    rw [seir_step_none_of_eq st h0] at h
    exact Option.noConfusion h
  rw [seir_step_eq_some st hNne] at h
  obtain rfl := Option.some_inj.mp h.symm
  dsimp only
  have h1 : 0 ≤ (clampState st).alfa * (clampState st).I :=
    mul_nonneg (clampState_comps_nonneg st).2.2.2.2.2.1 (clampState_comps_nonneg st).2.2.1
  have h2 : (clampState st).D = max st.D 0 := by simp [clampState]
  rw [h2]
  linarith

/-- **C6.** For an input state with non-negative components and a
non-negative fatality rate `alfa`, the cumulative-deaths component
returned by `seir_step` is non-negative and at least the input `D`; and
along any defined finite trajectory of iterated steps the deaths
component stays non-negative and never drops below the initial `D`. -/
theorem seir_step_deaths_monotone (st : SEIRState)
    (hc : compartmentsNonneg st) (halfa : 0 ≤ st.alfa) :
    (∀ out, seir_step st = some out → 0 ≤ out.D ∧ st.D ≤ out.D) ∧
    (∀ n out, seirIter st n = some out → 0 ≤ out.D ∧ st.D ≤ out.D) := by
  have hstep1 : ∀ s t : SEIRState, seir_step s = some t → 0 ≤ t.D ∧ s.D ≤ t.D := by
    intro s t h
    have hge := seir_step_D_ge_max s t h
    exact ⟨le_trans (le_max_right _ _) hge, le_trans (le_max_left _ _) hge⟩
  refine ⟨fun out h => hstep1 st out h, ?_⟩
  intro n
  induction n with
  | zero =>
    intro out h
    simp only [seirIter] at h
    obtain rfl := Option.some_inj.mp h
    exact ⟨hc.2.2.2.2, le_refl _⟩
  | succ k ih =>
    intro out h
    simp only [seirIter] at h
    cases hmid : seirIter st k with
    | none =>
      rw [hmid] at h
      exact Option.noConfusion h
    | some mid =>
      rw [hmid] at h
      obtain ⟨hmid0, hmidD⟩ := ih mid hmid
      obtain ⟨hout0, houtD⟩ := hstep1 mid out h
      exact ⟨hout0, le_trans hmidD houtD⟩

lemma clampState_idem (st : SEIRState) : clampState (clampState st) = clampState st := by
  have h : ∀ q : ℚ, max (max q 0) 0 = max q 0 := fun q => max_eq_left (le_max_right q 0)
  simp only [clampState, h]

/-- **C10.** `seir_step` clamps every component of its input to zero from
below, the rate parameters included: stepping a state is the same as
stepping its clamped state, and the parameter components written back
into the returned state are `max(param, 0)`, so a negative trial
parameter is replaced by `0` both in the computation and in the result. -/
theorem seir_step_clamps_all_components (st : SEIRState) :
    seir_step st = seir_step (clampState st) ∧
    ∀ out, seir_step st = some out →
      out.alfa = max st.alfa 0 ∧ out.beta = max st.beta 0 ∧
      out.eps = max st.eps 0 ∧ out.gamma = max st.gamma 0 := by
  constructor
  · unfold seir_step
    rw [clampState_idem]
  · intro out h
    have hNne :
        (clampState st).S + (clampState st).E + (clampState st).I + (clampState st).R ≠ 0 := by
      intro h0
      rw [seir_step_none_of_eq st h0] at h
      exact Option.noConfusion h
    rw [seir_step_eq_some st hNne] at h
    obtain rfl := Option.some_inj.mp h.symm
    dsimp only
    refine ⟨?_, ?_, ?_, ?_⟩ <;> simp [clampState]

/-- **C2 counterexample.** The Lorenz evolution step does not carry a
negative parameter component through unchanged: on input
`[1, 1, 1, -1, 1, 1]` the returned `rho` is `1 = |-1|`, not the input
`-1`. -/
theorem lorenz_evol_step_rho_changed :
    (lorenz_evol_step ⟨1, 1, 1, -1, 1, 1⟩).rho ≠ (-1 : ℚ) := by
  norm_num [lorenz_evol_step, lorenz_step]

/-- **C2 (amended).** The parameter components `rho, sigma, beta` returned
by one application of `lorenz_evol_step` are the absolute values of the
corresponding input parameter components (hence they coincide with the
inputs exactly when those are non-negative). -/
theorem lorenz_evol_step_params_abs (st : LorenzState) :
    (lorenz_evol_step st).rho = |st.rho| ∧
    (lorenz_evol_step st).sigma = |st.sigma| ∧
    (lorenz_evol_step st).beta = |st.beta| :=
  ⟨rfl, rfl, rfl⟩

/-- **C7.** The dynamic components returned by `lorenz_evol_step` are the
forward-Euler update, with step `d = 0.01`, of the Lorenz-63 increments
evaluated at the absolute values of the parameters. -/
theorem lorenz_evol_step_euler (st : LorenzState) :
    d = 1 / 100 ∧
    (lorenz_evol_step st).x = st.x + d * (|st.sigma| * (st.y - st.x)) ∧
    (lorenz_evol_step st).y = st.y + d * (st.x * (|st.rho| - st.z) - st.y) ∧
    (lorenz_evol_step st).z = st.z + d * (st.x * st.y - |st.beta| * st.z) :=
  ⟨rfl, rfl, rfl, rfl⟩

/-- **C8.** The observation generator returns exactly `N` observations,
and the `i`-th one (0-based, in time order) is the observation operator
applied to the `i`-fold iterate of the evolution function on the starting
state: the current state is observed first, then advanced. -/
theorem prepare_obs_observations {α β : Type} (x0 : α) (obs_operator : α → β)
    (evolution_function : α → α) (N : ℕ) :
    (prepare_obs x0 obs_operator evolution_function N).length = N ∧
    ∀ i, i < N →
      (prepare_obs x0 obs_operator evolution_function N)[i]? =
        some (obs_operator (evolution_function^[i] x0)) := by
  constructor
  · induction N generalizing x0 with
    | zero => rfl
    | succ n ih => simp [prepare_obs, ih]
  · induction N generalizing x0 with
    | zero => exact fun i h => absurd h (Nat.not_lt_zero i)
    | succ n ih =>
      intro i h
      cases i with
      | zero => simp [prepare_obs]
      | succ j =>
        have hj : j < n := Nat.lt_of_succ_lt_succ h
        simp only [prepare_obs, List.getElem?_cons_succ]
        rw [ih (evolution_function x0) j hj, Function.iterate_succ_apply]

/-- **C9.** The observation generator is deterministic: two runs of
`prepare_obs` on equal starting states, observation operators, evolution
functions and counts produce equal observation sequences. -/
theorem prepare_obs_deterministic {α β : Type} (x₁ x₂ : α) (H₁ H₂ : α → β)
    (M₁ M₂ : α → α) (n₁ n₂ : ℕ) (hx : x₁ = x₂) (hH : H₁ = H₂) (hM : M₁ = M₂)
    (hn : n₁ = n₂) :
    prepare_obs x₁ H₁ M₁ n₁ = prepare_obs x₂ H₂ M₂ n₂ := by
  rw [hx, hH, hM, hn]

/-- **C3.** Against the spec-modelled assimilation engine: if the
observations over the window are generated with zero noise from a true
state, the background equals that true state, and the prior weights are
positive, then any result of `assimilate` — any state whose cost does not
exceed the background's — is exactly the true state. -/
theorem assimilate_recovers_truth {n m : ℕ} (xt : Fin n → ℚ)
    (yobs : ℕ → Fin m → ℚ) (obs_operator : (Fin n → ℚ) → Fin m → ℚ)
    (evolution_function : (Fin n → ℚ) → Fin n → ℚ) (w : Fin n → ℚ)
    (steps : ℕ) (r : Fin n → ℚ) (hw : ∀ j, 0 < w j)
    (hobs : ∀ i, i < steps → yobs i = obs_operator (evolution_function^[i] xt))
    (hr : AssimilateResult xt yobs obs_operator evolution_function w steps r) :
    r = xt := by
  have hxt : assimCost xt yobs obs_operator evolution_function w steps xt = 0 := by
    unfold assimCost
    rw [Finset.sum_eq_zero, Finset.sum_eq_zero]
    · norm_num
    · intro i hi
      rw [hobs i (Finset.mem_range.mp hi)]
      exact Finset.sum_eq_zero fun k _ => by ring
    · intro j _
      ring
  have hprior : 0 ≤ ∑ j, w j * (r j - xt j) ^ 2 :=
    Finset.sum_nonneg fun j _ => mul_nonneg (hw j).le (sq_nonneg _)
  have hmis : 0 ≤ ∑ i ∈ Finset.range steps,
      ∑ k, (obs_operator (evolution_function^[i] r) k - yobs i k) ^ 2 :=
    Finset.sum_nonneg fun i _ => Finset.sum_nonneg fun k _ => sq_nonneg _
  have hr0 : assimCost xt yobs obs_operator evolution_function w steps r = 0 := by
    have hle := hr
    unfold AssimilateResult at hle
    rw [hxt] at hle
    have hge : 0 ≤ assimCost xt yobs obs_operator evolution_function w steps r := by
      unfold assimCost
      exact add_nonneg hprior hmis
    linarith
  have hpz : ∑ j, w j * (r j - xt j) ^ 2 = 0 := by
    unfold assimCost at hr0
    linarith
  funext j
  have hterm := (Finset.sum_eq_zero_iff_of_nonneg
    (fun j _ => mul_nonneg (hw j).le (sq_nonneg (r j - xt j)))).mp hpz j (Finset.mem_univ j)
  rcases mul_eq_zero.mp hterm with hwz | hsq
  · exact absurd hwz (hw j).ne'
  · have hz := (pow_eq_zero_iff two_ne_zero).mp hsq
    exact sub_eq_zero.mp hz

/-- Witness for the amended C1 at the notebook's epidemic scenario
(population 40,000,000, one exposed individual). -/
theorem seir_step_nonneg_components_witness :
    compartmentsNonneg ⟨40000000, 1, 0, 0, 0, 7/1000, 2, 1/5, 7/50⟩ ∧
    paramsInBounds ⟨40000000, 1, 0, 0, 0, 7/1000, 2, 1/5, 7/50⟩ ∧
    (0 ≤ (4/5 : ℚ) ∧ 0 ≤ (1/5 : ℚ) ∧ 0 ≤ (0 : ℚ) ∧ 0 ≤ (0 : ℚ) ∧
      ((2 : ℚ) * 0 ≤ 40000000 + 1 + 0 + 0 → 0 ≤ (40000000 : ℚ))) := by
  refine ⟨by norm_num [compartmentsNonneg], by norm_num [paramsInBounds], ?_⟩
  exact seir_step_nonneg_components ⟨40000000, 1, 0, 0, 0, 7/1000, 2, 1/5, 7/50⟩
    ⟨40000000, 4/5, 1/5, 0, 0, 7/1000, 2, 1/5, 7/50⟩
    (by norm_num [compartmentsNonneg]) (by norm_num [paramsInBounds])
    (by norm_num [seir_step, clampState, max_def])

/-- Witness for C5 at the notebook's epidemic scenario. -/
theorem seir_step_alive_population_witness :
    compartmentsNonneg ⟨40000000, 1, 0, 0, 0, 7/1000, 2, 1/5, 7/50⟩ ∧
    paramsInBounds ⟨40000000, 1, 0, 0, 0, 7/1000, 2, 1/5, 7/50⟩ ∧
    ((40000000 : ℚ) + 4/5 + 1/5 + 0 = (40000000 + 1 + 0 + 0) - 7/1000 * 0 ∧
      (40000000 : ℚ) + 4/5 + 1/5 + 0 ≤ 40000000 + 1 + 0 + 0) := by
  refine ⟨by norm_num [compartmentsNonneg], by norm_num [paramsInBounds], ?_⟩
  exact seir_step_alive_population ⟨40000000, 1, 0, 0, 0, 7/1000, 2, 1/5, 7/50⟩
    ⟨40000000, 4/5, 1/5, 0, 0, 7/1000, 2, 1/5, 7/50⟩
    (by norm_num [compartmentsNonneg]) (by norm_num [paramsInBounds])
    (by norm_num) (by norm_num [seir_step, clampState, max_def])

/-- Witness for C6 at the notebook's epidemic scenario. -/
theorem seir_step_deaths_monotone_witness :
    compartmentsNonneg ⟨40000000, 1, 0, 0, 0, 7/1000, 2, 1/5, 7/50⟩ ∧
    (0 : ℚ) ≤ 7/1000 ∧ (0 ≤ (0 : ℚ) ∧ (0 : ℚ) ≤ (0 : ℚ)) := by
  refine ⟨by norm_num [compartmentsNonneg], by norm_num, ?_⟩
  exact (seir_step_deaths_monotone ⟨40000000, 1, 0, 0, 0, 7/1000, 2, 1/5, 7/50⟩
    (by norm_num [compartmentsNonneg]) (by norm_num)).1
    ⟨40000000, 4/5, 1/5, 0, 0, 7/1000, 2, 1/5, 7/50⟩
    (by norm_num [seir_step, clampState, max_def])

/-- Witness for C10 at a state whose four rate parameters are negative. -/
theorem seir_step_clamps_all_components_witness :
    seir_step ⟨1, 1, 1, 1, 1, -1, -2, -3, -4⟩ =
      seir_step (clampState ⟨1, 1, 1, 1, 1, -1, -2, -3, -4⟩) ∧
    ((0 : ℚ) = max (-1) 0 ∧ (0 : ℚ) = max (-2) 0 ∧
      (0 : ℚ) = max (-3) 0 ∧ (0 : ℚ) = max (-4) 0) :=
  ⟨(seir_step_clamps_all_components ⟨1, 1, 1, 1, 1, -1, -2, -3, -4⟩).1,
   (seir_step_clamps_all_components ⟨1, 1, 1, 1, 1, -1, -2, -3, -4⟩).2
     ⟨1, 1, 1, 1, 1, 0, 0, 0, 0⟩ (by norm_num [seir_step, clampState, max_def])⟩

/-- Witness for C8 on a concrete three-observation run. -/
theorem prepare_obs_observations_witness :
    (prepare_obs (1 : ℚ) (fun q => q) (fun q => q + 1) 3).length = 3 ∧
    (prepare_obs (1 : ℚ) (fun q => q) (fun q => q + 1) 3)[2]? =
      some ((fun q : ℚ => q) ((fun q : ℚ => q + 1)^[2] 1)) :=
  ⟨(prepare_obs_observations (1 : ℚ) (fun q => q) (fun q => q + 1) 3).1,
   (prepare_obs_observations (1 : ℚ) (fun q => q) (fun q => q + 1) 3).2 2 (by norm_num)⟩

/-- Witness for C9 on a concrete two-observation run. -/
theorem prepare_obs_deterministic_witness :
    prepare_obs (0 : ℚ) (fun q => q + 1) (fun q => 2 * q) 2 =
      prepare_obs (0 : ℚ) (fun q => q + 1) (fun q => 2 * q) 2 :=
  prepare_obs_deterministic 0 0 (fun q => q + 1) (fun q => q + 1)
    (fun q => 2 * q) (fun q => 2 * q) 2 2 rfl rfl rfl rfl

/-- Witness for C3 on a one-dimensional model with identity transition
and observation, truth `2`, one zero-noise observation, unit weight. -/
theorem assimilate_recovers_truth_witness :
    AssimilateResult (fun _ : Fin 1 => (2 : ℚ)) (fun _ => fun _ => 2) (fun s => s) id
      (fun _ => 1) 1 (fun _ : Fin 1 => (2 : ℚ)) ∧
    (fun _ : Fin 1 => (2 : ℚ)) = (fun _ : Fin 1 => (2 : ℚ)) := by
  constructor
  · unfold AssimilateResult
    exact le_refl _
  · exact assimilate_recovers_truth (fun _ : Fin 1 => (2 : ℚ)) (fun _ => fun _ => 2)
      (fun s => s) id (fun _ => 1) 1 (fun _ : Fin 1 => (2 : ℚ))
      (fun _ => one_pos)
      (fun i _ => by rw [Function.iterate_id]; rfl)
      (by unfold AssimilateResult; exact le_refl _)

end SeirFourDVar
